import Mathlib

/-
Verification of the catalog-synchronization pipeline of the
plugin.video.mediathekview repository: a shallow embedding of
`classes/updater.py` (streaming record decoder, mirror resolver, snapshot
downloader, import/cancellation driver) and `resources/lib/mvutils.py`
(`make_duration`, `_chunked_url_copier`), together with theorems about the
embedded definitions.
-/

set_option autoImplicit false
set_option maxRecDepth 4000

namespace MVUpdater

/-! ## Python string primitives

The source manipulates Python 2 strings with `strip`, `split`, slicing and
`int(...)`.  These are embedded at the `List Char` level so that every
definition is executable and kernel-reducible. -/

/-- Drop leading whitespace characters, as Python `lstrip()`. -/
def dropWs (cs : List Char) : List Char := cs.dropWhile (fun c => c.isWhitespace)

/-- Python `str.strip()` on the character list: drop trailing then leading
whitespace. -/
def stripChars (cs : List Char) : List Char := dropWs ((dropWs cs.reverse).reverse)

/-- Python `val.strip()`. -/
def pyStrip (s : String) : String := ⟨stripChars s.data⟩

/-- Numeric value of a list of decimal digit characters. -/
def digitsVal (cs : List Char) : Nat := cs.foldl (fun a c => 10 * a + (c.toNat - 48)) 0

/-- True iff the character list is nonempty and all decimal digits. -/
def isDigits (cs : List Char) : Bool := !cs.isEmpty && cs.all (fun c => c.isDigit)

/-- Python `int(s)` for base 10: strips whitespace, accepts an optional sign
followed by at least one digit, and raises `ValueError` (here: `none`)
otherwise. -/
def pyIntChars (cs : List Char) : Option Int :=
  match stripChars cs with
  | '+' :: rest => if isDigits rest then some (Int.ofNat (digitsVal rest)) else none
  | '-' :: rest => if isDigits rest then some (-(Int.ofNat (digitsVal rest))) else none
  | t => if isDigits t then some (Int.ofNat (digitsVal t)) else none

/-- Python `int(s)` on a `String`. -/
def pyInt (s : String) : Option Int := pyIntChars s.data

/-- Python slice `s[:n]` for a natural bound. -/
def pyTake (s : String) (n : Nat) : String := ⟨s.data.take n⟩

/-- Python slice `s[n:]` for a natural bound. -/
def pyDrop (s : String) (n : Nat) : String := ⟨s.data.drop n⟩

/-- Python slice `s[:n]` for a possibly negative bound `n`: a negative bound
counts from the end of the string, clamped at zero. -/
def pySliceTo (s : String) (n : Int) : String :=
  if 0 ≤ n then ⟨s.data.take n.toNat⟩
  else ⟨s.data.take ((s.data.length : Int) + n).toNat⟩

/-- Python `len(s)`. -/
def pyLen (s : String) : Nat := s.data.length

/-- Python `s.split(c)` for a one-character separator, on character lists:
always returns at least one (possibly empty) part. -/
def pySplitChar (c : Char) : List Char → List (List Char)
  | [] => [[]]
  | x :: xs =>
    let r := pySplitChar c xs
    if x = c then [] :: r
    else
      match r with
      | h :: t => (x :: h) :: t
      | [] => [[x]]

/-- Python `s.split(c)` for a one-character separator. -/
def pySplit (c : Char) (s : String) : List String :=
  (pySplitChar c s.data).map (fun l => ⟨l⟩)

/-! ## The Catalog Record (`self.film` in `updater.py`)

`_update_start` initialises the dict with these defaults; index position 10
of `_add_value` writes the extra key `suburl_subtitles` that is absent from
the initial dict, modelled as an `Option`. -/

/-- The decoded Catalog Record, mirroring the `self.film` dict of
`MediathekViewUpdater` (`show` is spelled `show_` because `show` is a Lean
keyword). -/
structure Film where
  channel : String := ""
  show_ : String := ""
  title : String := ""
  aired : String := "1980-01-01 00:00:00"
  duration : String := "00:00:00"
  size : Int := 0
  description : String := ""
  website : String := ""
  url_sub : String := ""
  url_video : String := ""
  url_video_sd : String := ""
  url_video_hd : String := ""
  airedepoch : Int := 0
  geo : String := ""
  suburl_subtitles : Option String := none
  deriving Repr, DecidableEq

/-- The record as initialised by `_update_start`. -/
def defaultFilm : Film := {}

/-- `_init_record`: resets the positional cursor's record fields to their
defaults.  Exactly the keys written by the Python method are reset; `channel`,
`show` and `suburl_subtitles` are not touched by it. -/
def init_record (f : Film) : Film :=
  { f with
    title := ""
    aired := "1980-01-01 00:00:00"
    duration := "00:00:00"
    size := 0
    description := ""
    website := ""
    url_sub := ""
    url_video := ""
    url_video_sd := ""
    url_video_hd := ""
    airedepoch := 0
    geo := "" }

/-- `_make_url`: splits on `'|'`; on exactly two parts computes
`url_video[:int(first)] + second` (where `int` may raise, giving `none`),
otherwise returns the value unchanged. -/
def make_url (f : Film) (val : String) : Option String :=
  match pySplit '|' val with
  | [a, b] =>
    match pyInt a with
    | some cnt => some (pySliceTo f.url_video cnt ++ b)
    | none => none
  | _ => some val

/-- The date reformatting of `_add_value` position 3:
`val[6:] + '-' + val[3:5] + '-' + val[:2]`. -/
def reformatDate (val : String) : String :=
  pyDrop val 6 ++ "-" ++ pyTake (pyDrop val 3) 2 ++ "-" ++ pyTake val 2

/-- One positional field assignment of `_add_value`, keyed on the cursor
`i = self.index`; `none` models a raised `ValueError`. -/
def addField (i : Nat) (f : Film) (val : String) : Option Film :=
  if i = 0 then some (if val = "" then f else { f with channel := val })
  else if i = 1 then some (if val = "" then f else { f with show_ := pyTake val 255 })
  else if i = 2 then some { f with title := pyTake val 255 }
  else if i = 3 then
    some (if pyLen val = 10 then { f with aired := reformatDate val } else f)
  else if i = 4 then
    some (if f.aired ≠ "1980-01-01 00:00:00" ∧ pyLen val = 8 then
      { f with aired := f.aired ++ " " ++ val }
    else f)
  else if i = 5 then some (if pyLen val = 8 then { f with duration := val } else f)
  else if i = 6 then
    if val = "" then some f else (pyInt val).map (fun n => { f with size := n })
  else if i = 7 then some { f with description := val }
  else if i = 8 then some { f with url_video := val }
  else if i = 9 then some { f with website := val }
  else if i = 10 then some { f with suburl_subtitles := some val }
  else if i = 12 then (make_url f val).map (fun u => { f with url_video_sd := u })
  else if i = 14 then (make_url f val).map (fun u => { f with url_video_hd := u })
  else if i = 16 then
    if val = "" then some f else (pyInt val).map (fun n => { f with airedepoch := n })
  else if i = 18 then some { f with geo := val }
  else some f

/-- Decoder state: the record under construction plus the positional cursor
(`self.film` and `self.index`). -/
structure DecState where
  film : Film
  index : Nat
  deriving Repr, DecidableEq

/-- `_add_value`: write the value at the current cursor position and advance
the cursor by one; `none` models a raised `ValueError`. -/
def add_value (s : DecState) (val : String) : Option DecState :=
  (addField s.index s.film val).map (fun f' => { film := f', index := s.index + 1 })

/-! ## The import loop (`Import` in `updater.py`)

`ijson.parse` yields `(prefix, event, value)` triples; only the triples
`("X", "start_array")`, `("X", "end_array")` and `("X.item", "string")`
are acted upon, every other triple falls through the `elif` chain. -/

/-- One parser token.  `leaf none` is a `string` event whose value is the
Python `None` (the code then passes `""` to `_add_value`). -/
inductive Token where
  | startRecord
  | endRecord
  | leaf (v : Option String)
  | other
  deriving Repr, DecidableEq

/-- Number of `endRecord` tokens, i.e. how many complete records a stream
hands to storage. -/
def countEnds : List Token → Nat
  | [] => 0
  | Token.endRecord :: ts => countEnds ts + 1
  | _ :: ts => countEnds ts

/-- Observable outcome of one `Import` run: records processed (`self.count`),
the records handed to `sql.ftInsertFilm`, the `aborted` flags of the
`sql.ftUpdateEnd` calls, the status string of the final `sql.UpdateStatus`
call (`none` when an uncaught exception escapes before it), whether
`file.close()` ran, and the Python return value (`none` for an uncaught
exception). -/
structure ImportOut where
  processed : Nat
  inserted : List Film
  endCalls : List Bool
  finalStatus : Option String
  fileClosed : Bool
  retval : Option Bool
  deriving Repr, DecidableEq

/-- The value handed to `_add_value` for a leaf: `value.strip()` when the
parser value is a string, `""` when it is `None`. -/
def leafVal : Option String → String
  | some s => pyStrip s
  | none => ""

/-- The token loop of `Import`.  On `end_array` the record is inserted and
`self.count` incremented (`_end_record`), then `monitor.abortRequested()` is
polled whenever `count % 100 == 0`; a trip closes the file, finalises via
`_update_end(True, 'ABORTED', ...)` and returns `True`.  Stream exhaustion
finalises via `_update_end(False, 'IDLE', ...)` and returns `True`.  A
`ValueError` from `_add_value` is not an `IOError`, so it escapes `Import`
uncaught: no `_update_end`, no `file.close()`. -/
def importRun (abort : Nat → Bool) :
    List Token → DecState → Nat → List Film → ImportOut
  | [], _, c, acc =>
    { processed := c, inserted := acc, endCalls := [false],
      finalStatus := some "IDLE", fileClosed := true, retval := some true }
  | Token.startRecord :: ts, st, c, acc =>
    importRun abort ts { film := init_record st.film, index := 0 } c acc
  | Token.endRecord :: ts, st, c, acc =>
    if (c + 1) % 100 = 0 ∧ abort (c + 1) = true then
      { processed := c + 1, inserted := acc ++ [st.film], endCalls := [true],
        finalStatus := some "ABORTED", fileClosed := true, retval := some true }
    else
      importRun abort ts st (c + 1) (acc ++ [st.film])
  | Token.leaf v :: ts, st, c, acc =>
    match add_value st (leafVal v) with
    | some st' => importRun abort ts st' c acc
    | none =>
      { processed := c, inserted := acc, endCalls := [],
        finalStatus := none, fileClosed := false, retval := none }
  | Token.other :: ts, st, c, acc => importRun abort ts st c acc

/-- A full `Import` run over a token stream, starting from the state built by
`_update_start` (`self.film` at its defaults, `index = 0`, `count = 0`). -/
def importFilmlist (abort : Nat → Bool) (tokens : List Token) : ImportOut :=
  importRun abort tokens { film := defaultFilm, index := 0 } 0 []

/-! ## Mirror resolver (manifest parsing and sorting in `GetNewestList`)

`urls.append((URL, Prio))` stores the `Prio` *text*, and
`sorted(urls, key=itemgetter(1))` is Python's stable sort on that string
key.  The stable sort is embedded as insertion sort, which places each
element before the strictly greater keys and after equal ones. -/

/-- One `Server` entry of the manifest; `none` models a missing `URL`/`Prio`
element (whose `.text` access raises `AttributeError` and skips the entry). -/
structure ServerEntry where
  url : Option String
  prio : Option String
  deriving Repr, DecidableEq

/-- The `(URL, Prio)` pairs collected by the manifest loop: entries with a
missing element are skipped. -/
def mirrorPairs (servers : List ServerEntry) : List (String × String) :=
  servers.filterMap (fun s =>
    match s.url, s.prio with
    | some u, some p => some (u, p)
    | _, _ => none)

/-- Python's `<=` on strings at the character-list level: lexicographic by
code point, a proper prefix comparing as smaller. -/
def strLeChars : List Char → List Char → Bool
  | [], _ => true
  | _ :: _, [] => false
  | a :: as, b :: bs =>
    if a.toNat = b.toNat then strLeChars as bs
    else decide (a.toNat < b.toNat)

/-- Python's `<=` on strings. -/
def pyStrLe (a b : String) : Bool := strLeChars a.data b.data

/-- The sort key comparison of `sorted(urls, key=itemgetter(1))`: the `Prio`
strings under Python's lexicographic string order. -/
def prioLe (a b : String × String) : Bool := pyStrLe a.2 b.2

/-- Insert into a sorted list, before the first strictly greater key, so that
earlier list elements stay before later ones with an equal key (stability). -/
def insertSorted (x : String × String) :
    List (String × String) → List (String × String)
  | [] => [x]
  | y :: ys => if prioLe x y then x :: y :: ys else y :: insertSorted x ys

/-- Stable sort by the `Prio` string, as Python's `sorted` with that key. -/
def sortPairs : List (String × String) → List (String × String)
  | [] => []
  | x :: xs => insertSorted x (sortPairs xs)

/-- The sorted `(URL, Prio)` list of `GetNewestList`. -/
def sortedPairs (servers : List ServerEntry) : List (String × String) :=
  sortPairs (mirrorPairs servers)

/-- `urls = [ url[0] for url in urls ]`: the final ordered mirror URL list. -/
def mirrorUrls (servers : List ServerEntry) : List String :=
  (sortedPairs servers).map Prod.fst

/-! ## Snapshot download loop of `GetNewestList` -/

/-- Observable side effects of the download section: the single
`_cleanup_downloads()` call, per-mirror `UpdateDownloadProgress(0, url)` and
the `urllib.urlretrieve` attempt. -/
inductive DlEvent where
  | cleanup
  | progress (url : String)
  | attempt (url : String)
  deriving Repr, DecidableEq

/-- The `for url in urls` retry loop: sets `lasturl`, reports progress,
attempts the download and `break`s on the first success.  Returns the event
list, the success flag (`result is not None`) and the final `lasturl`. -/
def downloadLoop (ok : String → Bool) :
    List String → String → List DlEvent × Bool × String
  | [], last => ([], false, last)
  | u :: rest, _ =>
    if ok u then ([DlEvent.progress u, DlEvent.attempt u], true, u)
    else
      let r := downloadLoop ok rest u
      (DlEvent.progress u :: DlEvent.attempt u :: r.1, r.2.1, r.2.2)

/-- The download section of `GetNewestList`: one `_cleanup_downloads()` call,
then the retry loop. -/
def downloadPhase (ok : String → Bool) (urls : List String) :
    List DlEvent × Bool × String :=
  let r := downloadLoop ok urls ""
  (DlEvent.cleanup :: r.1, r.2.1, r.2.2)

/-- The attempted URLs of an event list, in order. -/
def attemptsOf : List DlEvent → List String
  | [] => []
  | DlEvent.attempt u :: es => u :: attemptsOf es
  | _ :: es => attemptsOf es

/-- How many `cleanup` events an event list contains. -/
def countCleanup : List DlEvent → Nat
  | [] => 0
  | DlEvent.cleanup :: es => countCleanup es + 1
  | _ :: es => countCleanup es

/-! ## `GetNewestList` end to end (for the error-handling paths)

`updater.py` writes `except URLError as err:` but never imports `URLError`
(only `urllib2` is imported), so when `urlopen` raises, evaluating the bare
name `URLError` raises `NameError`.  Likewise, when the mirror list is empty
the loop never binds `err`, and `ShowDowloadError( lasturl, err )` raises
`NameError` on the unbound `err`. -/

/-- Calls `GetNewestList` makes on the notifier (UI sink). -/
inductive NotifierEvent where
  | showMissingXZError
  | showDownloadProgress
  | updateDownloadProgress (url : String)
  | closeDownloadProgress
  | showDownloadError (url : String)
  deriving Repr, DecidableEq

/-- How `GetNewestList` terminates: a Python return value, or an uncaught
`NameError` escaping the method. -/
inductive GNLOutcome where
  | ret (b : Bool)
  | nameError
  deriving Repr, DecidableEq

/-- Observable behaviour of one `GetNewestList` call: notifier calls in
order, number of `_cleanup_downloads()` calls, whether any `self.sql`
method was called (`GetNewestList` contains no storage call at all), and the
outcome. -/
structure GNLResult where
  events : List NotifierEvent
  cleanups : Nat
  storageTouched : Bool
  outcome : GNLOutcome
  deriving Repr, DecidableEq

/-- `GetNewestList`, abstracted over its environment: `xzFound` is whether
`_find_xz` succeeds, `manifest` is the parsed `Server` entries (`none` when
`urlopen(FILMLISTE_URL)` raises `URLError`), `ok url` is whether
`urlretrieve(url, ...)` succeeds, and `decompRet` is the final
`retval == 0 and self._file_exists(destfile)` decompression check. -/
def getNewestList (xzFound : Bool) (manifest : Option (List ServerEntry))
    (ok : String → Bool) (decompRet : Bool) : GNLResult :=
  if !xzFound then
    { events := [NotifierEvent.showMissingXZError], cleanups := 0,
      storageTouched := false, outcome := GNLOutcome.ret false }
  else
    match manifest with
    | none =>
      { events := [], cleanups := 0, storageTouched := false,
        outcome := GNLOutcome.nameError }
    | some servers =>
      let urls := mirrorUrls servers
      let dl := downloadLoop ok urls ""
      let dlEvents := dl.1.filterMap (fun e =>
        match e with
        | DlEvent.progress u => some (NotifierEvent.updateDownloadProgress u)
        | _ => none)
      if dl.2.1 then
        { events := NotifierEvent.showDownloadProgress :: dlEvents ++
            [NotifierEvent.closeDownloadProgress],
          cleanups := 1, storageTouched := false,
          outcome := GNLOutcome.ret decompRet }
      else if urls = [] then
        { events := [NotifierEvent.showDownloadProgress,
            NotifierEvent.closeDownloadProgress],
          cleanups := 1, storageTouched := false,
          outcome := GNLOutcome.nameError }
      else
        { events := NotifierEvent.showDownloadProgress :: dlEvents ++
            [NotifierEvent.closeDownloadProgress,
             NotifierEvent.showDownloadError dl.2.2],
          cleanups := 1, storageTouched := false,
          outcome := GNLOutcome.ret false }

/-! ## The chunked URL copier (`_chunked_url_copier` in `mvutils.py`) -/

/-- How `_chunked_url_copier` terminates: normal return on an empty read, or
`ExitRequested` raised when the abort hook trips. -/
inductive CopyOutcome where
  | finished
  | exitRequested
  deriving Repr, DecidableEq

/-- Observable behaviour of the copy loop: the `reporthook` arguments in
order, the number of `src.read` calls, the chunks passed to `dst.write` and
the outcome. -/
structure CopyResult where
  reports : List (Nat × Nat × Int)
  reads : Nat
  writes : List (List Nat)
  outcome : CopyOutcome
  deriving Repr, DecidableEq

/-- The `while not aborthook():` loop: poll the hook, report
`(total_chunks, chunk_size, total_size)`, read the next chunk (`[]` models
the empty read at end of stream), return on an empty chunk, else write it
and continue.  `chs` are the chunks the source still delivers and `i` is
`total_chunks`. -/
def copierLoop (ab : Nat → Bool) (csz : Nat) (tsz : Int) :
    List (List Nat) → Nat → CopyResult
  | chs, i =>
    if ab i then
      { reports := [], reads := 0, writes := [], outcome := CopyOutcome.exitRequested }
    else
      match chs with
      | [] =>
        { reports := [(i, csz, tsz)], reads := 1, writes := [],
          outcome := CopyOutcome.finished }
      | c :: rest =>
        if c = [] then
          { reports := [(i, csz, tsz)], reads := 1, writes := [],
            outcome := CopyOutcome.finished }
        else
          let r := copierLoop ab csz tsz rest (i + 1)
          { reports := (i, csz, tsz) :: r.reports, reads := r.reads + 1,
            writes := c :: r.writes, outcome := r.outcome }

/-- `total_size`: `int(src.info().getheader('Content-Length').strip())` when
the transport declared a (truthy) content length, else `0`; `none` models a
`ValueError` from `int`.  `cl = none` covers both a missing header and a
missing `info()`; an empty header string is falsy in Python and also gives
`0`. -/
def totalSizeOf (cl : Option String) : Option Int :=
  match cl with
  | none => some 0
  | some h => if h = "" then some 0 else pyInt (pyStrip h)

/-- `_chunked_url_copier` itself: defaults the abort hook to
`lambda: False`, computes `total_size` and runs the loop. -/
def chunkedUrlCopier (cl : Option String) (csz : Nat) (ab : Option (Nat → Bool))
    (chunks : List (List Nat)) : Option CopyResult :=
  let h := match ab with | some f => f | none => fun _ => false
  match totalSizeOf cl with
  | none => none
  | some tsz => some (copierLoop h csz tsz chunks 0)

/-! ## `make_duration` (`mvutils.py`) -/

/-- `make_duration`: `None` and `"00:00:00"` give `None`, a split with other
than three parts gives `None`, otherwise `int(h)*3600 + int(m)*60 + int(s)`.
The outer `Option` models an uncaught `ValueError` from `int`; the inner one
is the function's own `None` result. -/
def make_duration (val : Option String) : Option (Option Int) :=
  match val with
  | none => some none
  | some s =>
    if s = "00:00:00" then some none
    else
      match pySplit ':' s with
      | [a, b, c] =>
        match pyInt a, pyInt b, pyInt c with
        | some x, some y, some z => some (some (x * 3600 + y * 60 + z))
        | _, _, _ => none
      | _ => some none

/-! ## Concrete inputs used by counterexamples and witnesses -/

/-- Token stream: record 1 carries a channel leaf, record 2 carries no leaf. -/
def channelLeakTokens : List Token :=
  [Token.startRecord, Token.leaf (some "ChanA"), Token.endRecord,
   Token.startRecord, Token.endRecord]

/-- A stream of 100 bare record boundaries, enough to reach the first
cancellation poll. -/
def cancelTokensEx : List Token := List.replicate 100 Token.endRecord

/-- Two manifest entries whose integer priorities (2 and 10) order opposite
to their string order. -/
def mirrorEx : List ServerEntry :=
  [{ url := some "http://a", prio := some "2" },
   { url := some "http://b", prio := some "10" }]

/-- Two manifest entries with priorities "1" and "2". -/
def mirrorFailEx : List ServerEntry :=
  [{ url := some "http://a", prio := some "1" },
   { url := some "http://b", prio := some "2" }]

/-- Download oracle for the failover example: only `u2` succeeds. -/
def dlOkEx : String → Bool := fun u => u = "u2"

/-- Abort hook for the copier example: trips at the second poll. -/
def copierAbortEx : Nat → Bool := fun d => d = 1

/-- A 300-character show name. -/
def longName : String := ⟨List.replicate 300 'x'⟩

end MVUpdater

namespace MVUpdater

/-! ## Helper lemmas about the Python string primitives -/

/-- A decimal digit character is not whitespace. -/
theorem not_whitespace_of_digit (c : Char) (h : c.isDigit = true) :
    c.isWhitespace = false := by
  simp only [Char.isDigit, Bool.and_eq_true, decide_eq_true_eq] at h
  simp only [Char.isWhitespace, Bool.or_eq_false_iff, decide_eq_false_iff_not]
  refine ⟨⟨⟨?_, ?_⟩, ?_⟩, ?_⟩ <;> rintro rfl <;> revert h <;> decide

/-- `dropWhile isWhitespace` keeps an all-digit list intact. -/
theorem dropWs_digits (cs : List Char) (h : isDigits cs = true) : dropWs cs = cs := by
  cases cs with
  | nil => rfl
  | cons c t =>
    have hc : c.isDigit = true := by
      simp only [isDigits, Bool.and_eq_true, List.all_eq_true] at h
      exact h.2 c (by simp)
    simp [dropWs, List.dropWhile_cons, not_whitespace_of_digit c hc]

/-- `strip()` keeps an all-digit list intact. -/
theorem stripChars_digits (cs : List Char) (h : isDigits cs = true) :
    stripChars cs = cs := by
  have hne : cs ≠ [] := by
    intro hcs
    rw [hcs] at h
    simp [isDigits] at h
  have hall : ∀ c ∈ cs, c.isDigit = true := by
    simp only [isDigits, Bool.and_eq_true, List.all_eq_true] at h
    exact h.2
  have hrev : isDigits cs.reverse = true := by
    simp only [isDigits, Bool.and_eq_true, List.all_eq_true]
    refine ⟨?_, fun c hc => hall c (List.mem_reverse.mp hc)⟩
    simpa [List.isEmpty_iff] using hne
  unfold stripChars
  rw [dropWs_digits _ hrev, List.reverse_reverse, dropWs_digits _ h]

/-- `int()` of a nonempty all-digit character list is its decimal value. -/
theorem pyIntChars_digits (cs : List Char) (h : isDigits cs = true) :
    pyIntChars cs = some (Int.ofNat (digitsVal cs)) := by
  unfold pyIntChars
  rw [stripChars_digits cs h]
  cases cs with
  | nil => simp [isDigits] at h
  | cons c t =>
    have hc : c.isDigit = true := by
      simp only [isDigits, Bool.and_eq_true, List.all_eq_true] at h
      exact h.2 c (by simp)
    have hplus : c ≠ '+' := by rintro rfl; revert hc; decide
    have hminus : c ≠ '-' := by rintro rfl; revert hc; decide
    split
    · rename_i rest heq
      injection heq with h1 h2
      exact absurd h1 hplus
    · rename_i rest heq
      injection heq with h1 h2
      exact absurd h1 hminus
    · simp [h]

/-- `int()` of a string of digits. -/
theorem pyInt_digits (s : String) (h : isDigits s.data = true) :
    pyInt s = some (Int.ofNat (digitsVal s.data)) :=
  pyIntChars_digits s.data h

/-- String `++` concatenates the underlying character lists. -/
theorem data_append (a b : String) : (a ++ b).data = a.data ++ b.data := rfl

/-- Character-list form of `reformatDate`. -/
theorem reformat_data (d : String) :
    (reformatDate d).data =
      (((d.data.drop 6 ++ ['-']) ++ (d.data.drop 3).take 2) ++ ['-']) ++ d.data.take 2 := rfl

/-- A reformatted 10-character date never equals the 19-character default
timestamp. -/
theorem reformat_ne_default (d : String) (hd : pyLen d = 10) :
    reformatDate d ≠ "1980-01-01 00:00:00" := by
  intro heq
  have h1 : (reformatDate d).data.length = ("1980-01-01 00:00:00" : String).data.length := by
    rw [heq]
  rw [reformat_data] at h1
  simp only [List.length_append, List.length_take, List.length_drop, List.length_cons,
    List.length_nil] at h1
  have hd' : d.data.length = 10 := hd
  rw [hd'] at h1
  omega

end MVUpdater

namespace MVUpdater

/-! ## C2: the aired date/time transform -/

/-- C2 counterexample: a 10-character raw date at position 3 sets `aired` to
the bare reformatted date `"2020-02-01"`, not to `"2020-02-01 00:00:00"` with
a zero time-of-day component as the claim states. -/
theorem aired_transform_counterexample :
    (add_value { film := defaultFilm, index := 3 } "01.02.2020").map
        (fun s => s.film.aired) = some "2020-02-01" ∧
    ¬ (add_value { film := defaultFilm, index := 3 } "01.02.2020").map
        (fun s => s.film.aired) = some "2020-02-01 00:00:00" := by
  decide

/-- C2 (amended): a 10-character raw date at position 3 sets `aired` to the
reformatted date with NO time-of-day component; the reformatted date never
equals the default, so a subsequent 8-character raw time at position 4 is
appended to it; an 8-character raw time arriving while `aired` still equals
its default `"1980-01-01 00:00:00"` leaves `aired` unchanged. -/
theorem aired_transform_amended :
    (∀ (f : Film) (d : String), pyLen d = 10 →
      (add_value { film := f, index := 3 } d).map (fun s => s.film.aired) =
        some (reformatDate d)) ∧
    (∀ d : String, pyLen d = 10 → reformatDate d ≠ "1980-01-01 00:00:00") ∧
    (∀ (f : Film) (t : String), f.aired ≠ "1980-01-01 00:00:00" → pyLen t = 8 →
      (add_value { film := f, index := 4 } t).map (fun s => s.film.aired) =
        some (f.aired ++ " " ++ t)) ∧
    (∀ (f : Film) (t : String), f.aired = "1980-01-01 00:00:00" →
      (add_value { film := f, index := 4 } t).map (fun s => s.film.aired) =
        some f.aired) := by
  refine ⟨?_, ?_, ?_, ?_⟩
  · intro f d hd
    simp [add_value, addField, hd]
  · exact fun d hd => reformat_ne_default d hd
  · intro f t hne ht
    simp [add_value, addField, hne, ht]
  · intro f t heq
    simp [add_value, addField, heq]

/-- C2 witness: the amended theorem applied at the spec's concrete example
inputs. -/
theorem aired_transform_witness :
    ((add_value { film := defaultFilm, index := 3 } "01.02.2020").map
        (fun s => s.film.aired) = some "2020-02-01") ∧
    ((add_value { film := { defaultFilm with aired := "2020-02-01" }, index := 4 }
        "03:04:05").map (fun s => s.film.aired) = some "2020-02-01 03:04:05") ∧
    ((add_value { film := defaultFilm, index := 4 } "03:04:05").map
        (fun s => s.film.aired) = some "1980-01-01 00:00:00") :=
  ⟨(aired_transform_amended.1 defaultFilm "01.02.2020" (by decide)).trans (by decide),
   (aired_transform_amended.2.2.1 { defaultFilm with aired := "2020-02-01" }
      "03:04:05" (by decide) (by decide)).trans (by decide),
   (aired_transform_amended.2.2.2 defaultFilm "03:04:05" rfl).trans (by decide)⟩

/-! ## C9: show/title truncation -/

/-- C9: a non-empty value at position 1 stores `show` truncated to its first
255 characters, and any value at position 2 stores `title` truncated to its
first 255 characters; both stored values have length at most 255. -/
theorem show_title_truncation :
    (∀ (f : Film) (val : String), val ≠ "" →
      (add_value { film := f, index := 1 } val).map (fun s => s.film.show_) =
        some (pyTake val 255) ∧ (pyTake val 255).data.length ≤ 255) ∧
    (∀ (f : Film) (val : String),
      (add_value { film := f, index := 2 } val).map (fun s => s.film.title) =
        some (pyTake val 255) ∧ (pyTake val 255).data.length ≤ 255) := by
  constructor
  · intro f val hval
    refine ⟨by simp [add_value, addField, hval], ?_⟩
    simp only [pyTake]
    rw [List.length_take]
    exact min_le_left _ _
  · intro f val
    refine ⟨by simp [add_value, addField], ?_⟩
    simp only [pyTake]
    rw [List.length_take]
    exact min_le_left _ _

/-- C9 witness: a 300-character show name is stored as exactly its first 255
characters. -/
theorem show_title_truncation_witness :
    longName ≠ "" ∧
    (add_value { film := defaultFilm, index := 1 } longName).map
        (fun s => s.film.show_) = some ⟨List.replicate 255 'x'⟩ ∧
    (⟨List.replicate 255 'x'⟩ : String).data.length = 255 :=
  ⟨by decide,
   ((show_title_truncation.1 defaultFilm longName (by decide)).1).trans (by decide),
   by decide⟩

/-! ## C10: make_duration -/

/-- C10: `make_duration` returns `None` exactly on `None`, `"00:00:00"`, or a
value that does not split into exactly three colon-separated parts; on a
`hh:mm:ss` value with decimal parts other than `"00:00:00"` it returns
`hh*3600 + mm*60 + ss` seconds. -/
theorem make_duration_spec :
    (make_duration none = some none) ∧
    (make_duration (some "00:00:00") = some none) ∧
    (∀ s : String, (pySplit ':' s).length ≠ 3 → make_duration (some s) = some none) ∧
    (∀ s : String, s ≠ "00:00:00" → (pySplit ':' s).length = 3 →
      make_duration (some s) ≠ some none) ∧
    (∀ (s a b c : String), pySplit ':' s = [a, b, c] →
      isDigits a.data = true → isDigits b.data = true → isDigits c.data = true →
      s ≠ "00:00:00" →
      make_duration (some s) =
        some (some ((digitsVal a.data : Int) * 3600 + (digitsVal b.data : Int) * 60 +
          (digitsVal c.data : Int)))) := by
  refine ⟨rfl, by decide, ?_, ?_, ?_⟩
  · intro s hs
    simp only [make_duration]
    by_cases h0 : s = "00:00:00"
    · rw [if_pos h0]
    · rw [if_neg h0]
      rcases h1 : pySplit ':' s with _ | ⟨a, _ | ⟨b, _ | ⟨c, _ | ⟨d, t⟩⟩⟩⟩
      · rfl
      · rfl
      · rfl
      · rw [h1] at hs
        simp at hs
      · rfl
  · intro s h0 hlen
    simp only [make_duration]
    rw [if_neg h0]
    rcases h1 : pySplit ':' s with _ | ⟨a, _ | ⟨b, _ | ⟨c, _ | ⟨d, t⟩⟩⟩⟩
    · rw [h1] at hlen
      simp at hlen
    · rw [h1] at hlen
      simp at hlen
    · rw [h1] at hlen
      simp at hlen
    · cases ha : pyInt a <;> cases hb : pyInt b <;> cases hc : pyInt c <;>
        simp [ha, hb, hc]
    · rw [h1] at hlen
      simp at hlen
  · intro s a b c hsp ha hb hc h0
    simp only [make_duration]
    rw [if_neg h0, hsp]
    simp [pyInt_digits a ha, pyInt_digits b hb, pyInt_digits c hc]

/-- C10 witness: the specification applied at concrete inputs. -/
theorem make_duration_witness :
    make_duration (some "01:02:03") = some (some 3723) ∧
    make_duration (some "12:34") = some none :=
  ⟨(make_duration_spec.2.2.2.2 "01:02:03" "01" "02" "03" (by decide) (by decide)
      (by decide) (by decide) (by decide)).trans (by decide),
   make_duration_spec.2.2.1 "12:34" (by decide)⟩

end MVUpdater

namespace MVUpdater

/-! ## C1: record reset at record boundaries -/

/-- C1 counterexample: record 1 sets `channel` to `"ChanA"`; record 2, which
supplies no leaf at all, is handed to storage with `channel` still equal to
`"ChanA"` rather than the default `""`, because `_init_record` never resets
`channel` (nor `show`). -/
theorem record_reset_counterexample :
    ((importFilmlist (fun _ => false) channelLeakTokens).inserted.map Film.channel) =
      ["ChanA", "ChanA"] ∧ ("ChanA" : String) ≠ "" := by
  decide

/-- C1 (amended): a record-array start token resets `title`, `aired`,
`duration`, `size`, `description`, `website`, `url_sub`, `url_video`,
`url_video_sd`, `url_video_hd`, `airedepoch` and `geo` to their defaults
(in particular a record supplying no title leaf carries `title = ""`), but
`channel` and `show` are NOT reset and persist from the previous record; a
record with no leaves is inserted exactly as `init_record` leaves it. -/
theorem record_reset_amended :
    (∀ f : Film,
      (init_record f).title = "" ∧
      (init_record f).aired = "1980-01-01 00:00:00" ∧
      (init_record f).duration = "00:00:00" ∧
      (init_record f).size = 0 ∧
      (init_record f).description = "" ∧
      (init_record f).website = "" ∧
      (init_record f).url_sub = "" ∧
      (init_record f).url_video = "" ∧
      (init_record f).url_video_sd = "" ∧
      (init_record f).url_video_hd = "" ∧
      (init_record f).airedepoch = 0 ∧
      (init_record f).geo = "" ∧
      (init_record f).channel = f.channel ∧
      (init_record f).show_ = f.show_) ∧
    (∀ (f : Film) (i c : Nat) (acc : List Film),
      (importRun (fun _ => false) [Token.startRecord, Token.endRecord]
        { film := f, index := i } c acc).inserted = acc ++ [init_record f]) := by
  constructor
  · intro f
    refine ⟨rfl, rfl, rfl, rfl, rfl, rfl, rfl, rfl, rfl, rfl, rfl, rfl, rfl, rfl⟩
  · intro f i c acc
    simp [importRun]

/-! ## C3: delta-encoded URL expansion -/

/-- C3 counterexample: on input `"abc|def"` (one delimiter, non-integer
count) `_make_url` raises `ValueError` from `int('abc')` instead of
returning the value unchanged as the claim states. -/
theorem make_url_counterexample :
    make_url { defaultFilm with url_video := "http://example.com/video.mp4" }
      "abc|def" = none ∧
    (none : Option String) ≠ some "abc|def" := by
  decide

/-- C3 (amended): a value splitting on `'|'` into exactly two parts with an
integer first part expands to `url_video[:N] + suffix`; with a non-integer
first part `_make_url` raises `ValueError` (modelled as `none`); a value
whose split does not have exactly two parts is returned unchanged. -/
theorem make_url_amended :
    (∀ (f : Film) (val a b : String) (n : Int),
      pySplit '|' val = [a, b] → pyInt a = some n →
      make_url f val = some (pySliceTo f.url_video n ++ b)) ∧
    (∀ (f : Film) (val a b : String),
      pySplit '|' val = [a, b] → pyInt a = none → make_url f val = none) ∧
    (∀ (f : Film) (val : String),
      (pySplit '|' val).length ≠ 2 → make_url f val = some val) := by
  refine ⟨?_, ?_, ?_⟩
  · intro f val a b n hsp hn
    simp only [make_url]
    rw [hsp]
    simp [hn]
  · intro f val a b hsp hn
    simp only [make_url]
    rw [hsp]
    simp [hn]
  · intro f val hlen
    simp only [make_url]
    rcases h1 : pySplit '|' val with _ | ⟨a, _ | ⟨b, _ | ⟨c, t⟩⟩⟩
    · rfl
    · rfl
    · rw [h1] at hlen
      simp at hlen
    · rfl

/-- C3 witness: the amended theorem applied at the spec's concrete example
and at a pass-through value. -/
theorem make_url_witness :
    make_url { defaultFilm with url_video := "http://example.com/video.mp4" }
      "7|suffix.mp4" = some "http://suffix.mp4" ∧
    make_url defaultFilm "http://other.com/x.mp4" = some "http://other.com/x.mp4" :=
  ⟨(make_url_amended.1 { defaultFilm with url_video := "http://example.com/video.mp4" }
      "7|suffix.mp4" "7" "suffix.mp4" 7 (by decide) (by decide)).trans (by decide),
   make_url_amended.2.2 defaultFilm "http://other.com/x.mp4" (by decide)⟩

end MVUpdater

namespace MVUpdater

/-! ## C5: download retry loop and cleanup -/

/-- Reduction helpers for the event-list observers. -/
theorem attemptsOf_progress (u : String) (es : List DlEvent) :
    attemptsOf (DlEvent.progress u :: es) = attemptsOf es := rfl

/-- `attemptsOf` collects an `attempt` event. -/
theorem attemptsOf_attempt (u : String) (es : List DlEvent) :
    attemptsOf (DlEvent.attempt u :: es) = u :: attemptsOf es := rfl

/-- `countCleanup` ignores a `progress` event. -/
theorem countCleanup_progress (u : String) (es : List DlEvent) :
    countCleanup (DlEvent.progress u :: es) = countCleanup es := rfl

/-- `countCleanup` ignores an `attempt` event. -/
theorem countCleanup_attempt (u : String) (es : List DlEvent) :
    countCleanup (DlEvent.attempt u :: es) = countCleanup es := rfl

/-- The retry loop attempts the URLs in order up to and including the first
success, succeeds iff some mirror succeeds, and performs no cleanup itself. -/
theorem downloadLoop_spec (ok : String → Bool) :
    ∀ (urls : List String) (last : String),
      attemptsOf (downloadLoop ok urls last).1 =
        List.take ((urls.takeWhile (fun u => !ok u)).length + 1) urls ∧
      (downloadLoop ok urls last).2.1 = urls.any ok ∧
      countCleanup (downloadLoop ok urls last).1 = 0 := by
  intro urls
  induction urls with
  | nil => exact fun last => ⟨rfl, rfl, rfl⟩
  | cons u rest ih =>
    intro last
    by_cases hu : ok u = true
    · simp [downloadLoop, hu, attemptsOf, countCleanup, List.takeWhile_cons]
    · have hu' : ok u = false := by simpa using hu
      have h := ih u
      simp only [downloadLoop, if_neg hu]
      refine ⟨?_, ?_, ?_⟩
      · rw [attemptsOf_progress, attemptsOf_attempt, h.1, List.takeWhile_cons]
        simp [hu', List.take_succ_cons]
      · simp [List.any_cons, hu', h.2.1]
      · rw [countCleanup_progress, countCleanup_attempt, h.2.2]

/-- C5 counterexample: with two mirrors where the first fails, the download
section of `GetNewestList` performs exactly one artifact cleanup but two
mirror attempts, so it cannot be true that the artifact is removed before
each new mirror attempt. -/
theorem download_cleanup_counterexample :
    countCleanup (downloadPhase dlOkEx ["u1", "u2"]).1 = 1 ∧
    (attemptsOf (downloadPhase dlOkEx ["u1", "u2"]).1).length = 2 ∧
    ¬ (attemptsOf (downloadPhase dlOkEx ["u1", "u2"]).1).length ≤
        countCleanup (downloadPhase dlOkEx ["u1", "u2"]).1 := by
  decide

/-- C5 (amended): mirrors are attempted strictly in list order up to and
including the first success (all of them when none succeeds), the loop
succeeds iff some mirror succeeds, and previously downloaded artifacts are
removed exactly once, before the first attempt, not before each attempt. -/
theorem download_cleanup_amended :
    ∀ (ok : String → Bool) (urls : List String),
      attemptsOf (downloadPhase ok urls).1 =
        List.take ((urls.takeWhile (fun u => !ok u)).length + 1) urls ∧
      (downloadPhase ok urls).2.1 = urls.any ok ∧
      countCleanup (downloadPhase ok urls).1 = 1 ∧
      (downloadPhase ok urls).1.head? = some DlEvent.cleanup := by
  intro ok urls
  have h := downloadLoop_spec ok urls ""
  refine ⟨?_, ?_, ?_, ?_⟩
  · simpa [downloadPhase, attemptsOf] using h.1
  · simpa [downloadPhase] using h.2.1
  · simpa [downloadPhase, countCleanup] using h.2.2
  · simp [downloadPhase]

end MVUpdater

namespace MVUpdater

/-! ## C4: mirror list ordering -/

/-- Python string `<=` is reflexive. -/
theorem strLeChars_refl : ∀ cs : List Char, strLeChars cs cs = true
  | [] => rfl
  | c :: t => by simp [strLeChars, strLeChars_refl t]

/-- Python string `<=` is total. -/
theorem strLeChars_total : ∀ as bs : List Char,
    strLeChars as bs = true ∨ strLeChars bs as = true := by
  intro as
  induction as with
  | nil => exact fun bs => Or.inl rfl
  | cons a as ih =>
    intro bs
    cases bs with
    | nil => exact Or.inr rfl
    | cons b bs =>
      by_cases hab : a.toNat = b.toNat
      · simp only [strLeChars, if_pos hab, if_pos hab.symm]
        exact ih bs
      · have hab' : ¬ b.toNat = a.toNat := fun h => hab h.symm
        simp only [strLeChars, if_neg hab, if_neg hab', decide_eq_true_eq]
        omega

/-- Python string `<=` is transitive. -/
theorem strLeChars_trans : ∀ as bs cs : List Char,
    strLeChars as bs = true → strLeChars bs cs = true → strLeChars as cs = true := by
  intro as
  induction as with
  | nil => intro bs cs h1 h2; rfl
  | cons a as ih =>
    intro bs cs h1 h2
    cases bs with
    | nil => simp [strLeChars] at h1
    | cons b bs =>
      cases cs with
      | nil => simp [strLeChars] at h2
      | cons c cs =>
        simp only [strLeChars] at h1 h2 ⊢
        by_cases hab : a.toNat = b.toNat <;> by_cases hbc : b.toNat = c.toNat
        · rw [if_pos hab] at h1
          rw [if_pos hbc] at h2
          rw [if_pos (hab.trans hbc)]
          exact ih bs cs h1 h2
        · rw [if_pos hab] at h1
          rw [if_neg hbc] at h2
          rw [if_neg (fun h => hbc (hab ▸ h))]
          simp only [decide_eq_true_eq] at h2 ⊢
          omega
        · rw [if_neg hab] at h1
          rw [if_pos hbc] at h2
          rw [if_neg (fun h => hab (h.trans hbc.symm))]
          simp only [decide_eq_true_eq] at h1 ⊢
          omega
        · rw [if_neg hab] at h1
          rw [if_neg hbc] at h2
          simp only [decide_eq_true_eq] at h1 h2
          rw [if_neg (by omega)]
          simp only [decide_eq_true_eq]
          omega

/-- `prioLe` holds between pairs with equal keys. -/
theorem prioLe_of_eq (x y : String × String) (h : x.2 = y.2) : prioLe x y = true := by
  simp only [prioLe, pyStrLe, h]
  exact strLeChars_refl _

/-- `prioLe` is total. -/
theorem prioLe_total (x y : String × String) : prioLe x y = true ∨ prioLe y x = true :=
  strLeChars_total _ _

/-- `prioLe` is transitive. -/
theorem prioLe_trans (x y z : String × String) (h1 : prioLe x y = true)
    (h2 : prioLe y z = true) : prioLe x z = true :=
  strLeChars_trans _ _ _ h1 h2

/-- Inserting permutes to consing. -/
theorem insertSorted_perm (x : String × String) :
    ∀ l : List (String × String), (insertSorted x l).Perm (x :: l) := by
  intro l
  induction l with
  | nil => exact List.Perm.refl _
  | cons y ys ih =>
    by_cases h : prioLe x y = true
    · simp [insertSorted, h]
    · simp only [insertSorted, if_neg h]
      exact (ih.cons y).trans (List.Perm.swap x y ys)

/-- The stable sort permutes its input. -/
theorem sortPairs_perm : ∀ l : List (String × String), (sortPairs l).Perm l := by
  intro l
  induction l with
  | nil => exact List.Perm.refl _
  | cons x xs ih => exact (insertSorted_perm x (sortPairs xs)).trans (ih.cons x)

/-- Inserting into a sorted list keeps it sorted. -/
theorem pairwise_insertSorted (x : String × String) :
    ∀ l : List (String × String),
      l.Pairwise (fun a b => prioLe a b = true) →
      (insertSorted x l).Pairwise (fun a b => prioLe a b = true) := by
  intro l
  induction l with
  | nil => intro _; simp [insertSorted]
  | cons y ys ih =>
    intro hl
    rcases List.pairwise_cons.mp hl with ⟨hy, hys⟩
    by_cases h : prioLe x y = true
    · simp only [insertSorted, if_pos h]
      refine List.pairwise_cons.mpr ⟨?_, hl⟩
      intro b hb
      rcases List.mem_cons.mp hb with hb | hb
      · exact hb ▸ h
      · exact prioLe_trans x y b h (hy b hb)
    · simp only [insertSorted, if_neg h]
      refine List.pairwise_cons.mpr ⟨?_, ih hys⟩
      intro b hb
      rcases List.mem_cons.mp ((insertSorted_perm x ys).mem_iff.mp hb) with hb | hb
      · rcases prioLe_total x y with hxy | hyx
        · exact absurd hxy h
        · exact hb ▸ hyx
      · exact hy b hb
    
/-- The stable sort sorts. -/
theorem sortPairs_pairwise : ∀ l : List (String × String),
    (sortPairs l).Pairwise (fun a b => prioLe a b = true) := by
  intro l
  induction l with
  | nil => simp [sortPairs]
  | cons x xs ih => exact pairwise_insertSorted x (sortPairs xs) ih

/-- Stability: inserting never reorders elements with any fixed key. -/
theorem filter_insertSorted (k : String) (x : String × String) :
    ∀ l : List (String × String),
      (insertSorted x l).filter (fun p => decide (p.2 = k)) =
        ((x :: l).filter (fun p => decide (p.2 = k))) := by
  intro l
  induction l with
  | nil => rfl
  | cons y ys ih =>
    by_cases h : prioLe x y = true
    · simp only [insertSorted, if_pos h]
    · simp only [insertSorted, if_neg h]
      by_cases hx : x.2 = k <;> by_cases hy : y.2 = k
      · exact absurd (prioLe_of_eq x y (hx.trans hy.symm)) h
      · simp [List.filter_cons, hx, hy, ih]
      · simp [List.filter_cons, hx, hy, ih]
      · simp [List.filter_cons, hx, hy, ih]

/-- Stability for the whole sort: for every key, the sorted list carries the
same-keyed elements in their original relative order. -/
theorem sortPairs_filter (k : String) : ∀ l : List (String × String),
    (sortPairs l).filter (fun p => decide (p.2 = k)) =
      l.filter (fun p => decide (p.2 = k)) := by
  intro l
  induction l with
  | nil => rfl
  | cons x xs ih =>
    calc (sortPairs (x :: xs)).filter (fun p => decide (p.2 = k))
        = ((x :: sortPairs xs).filter (fun p => decide (p.2 = k))) :=
          filter_insertSorted k x (sortPairs xs)
      _ = (x :: xs).filter (fun p => decide (p.2 = k)) := by
          by_cases hx : x.2 = k <;> simp [List.filter_cons, hx, ih]

/-- C4 counterexample: with priorities `2` and `10` the produced mirror list
is `["http://b", "http://a"]` — `Prio` `"10"` sorts before `"2"` as a string
— while the claim's integer-ascending order would put `"http://a"` (Prio 2)
first. -/
theorem mirror_order_counterexample :
    mirrorUrls mirrorEx = ["http://b", "http://a"] ∧
    mirrorUrls mirrorEx ≠ ["http://a", "http://b"] := by
  decide

/-- C4 (amended): the mirror list is ordered ascending by the `Prio` value
compared as a STRING (lexicographically by code point), not as an integer;
the sort is a permutation of the kept entries; ties and equal keys keep
document order (stable); entries with a missing `URL` or `Prio` element are
skipped without error. -/
theorem mirror_order_amended :
    (∀ servers : List ServerEntry,
      (sortedPairs servers).Pairwise (fun a b => prioLe a b = true)) ∧
    (∀ servers : List ServerEntry, (sortedPairs servers).Perm (mirrorPairs servers)) ∧
    (∀ (servers : List ServerEntry) (k : String),
      (sortedPairs servers).filter (fun p => decide (p.2 = k)) =
        (mirrorPairs servers).filter (fun p => decide (p.2 = k))) ∧
    (∀ servers : List ServerEntry, mirrorUrls servers = (sortedPairs servers).map Prod.fst) ∧
    (∀ (pre post : List ServerEntry) (p q : Option String),
      mirrorPairs (pre ++ { url := none, prio := p } :: post) = mirrorPairs (pre ++ post) ∧
      mirrorPairs (pre ++ { url := q, prio := none } :: post) = mirrorPairs (pre ++ post)) := by
  refine ⟨?_, ?_, ?_, ?_, ?_⟩
  · exact fun servers => sortPairs_pairwise (mirrorPairs servers)
  · exact fun servers => sortPairs_perm (mirrorPairs servers)
  · exact fun servers k => sortPairs_filter k (mirrorPairs servers)
  · exact fun servers => rfl
  · intro pre post p q
    constructor
    · simp [mirrorPairs, List.filterMap_append, List.filterMap_cons]
    · cases q <;> simp [mirrorPairs, List.filterMap_append, List.filterMap_cons]

end MVUpdater

namespace MVUpdater

/-! ## C6: cooperative cancellation during import -/

/-- Main induction for cancellation: starting below the first poll boundary
`m = 100 * (k / 100 + 1)` that lies beyond `k`, with enough record ends left
and a stream on which the uncancelled run succeeds, the cancelled run stops
exactly at `m`, finalises once as aborted, persists `ABORTED`, closes the
file and returns `True`. -/
theorem importRun_abort_aux (k : Nat) :
    ∀ (ts : List Token) (st : DecState) (c : Nat) (acc : List Film),
      (importRun (fun _ => false) ts st c acc).retval = some true →
      c < 100 * (k / 100 + 1) →
      100 * (k / 100 + 1) ≤ c + countEnds ts →
      (importRun (fun n => decide (k < n)) ts st c acc).processed = 100 * (k / 100 + 1) ∧
      (importRun (fun n => decide (k < n)) ts st c acc).endCalls = [true] ∧
      (importRun (fun n => decide (k < n)) ts st c acc).finalStatus = some "ABORTED" ∧
      (importRun (fun n => decide (k < n)) ts st c acc).fileClosed = true ∧
      (importRun (fun n => decide (k < n)) ts st c acc).retval = some true := by
  intro ts
  induction ts with
  | nil =>
    intro st c acc hok hlt hle
    exfalso
    simp only [countEnds] at hle
    omega
  | cons t ts ih =>
    intro st c acc hok hlt hle
    cases t with
    | startRecord =>
      simp only [importRun] at hok ⊢
      exact ih _ c acc hok hlt (by simpa [countEnds] using hle)
    | endRecord =>
      by_cases hm : c + 1 = 100 * (k / 100 + 1)
      · have hcond : (c + 1) % 100 = 0 ∧ decide (k < c + 1) = true := by
          refine ⟨by omega, ?_⟩
          simp only [decide_eq_true_eq]
          omega
        simp only [importRun, if_pos hcond]
        exact ⟨hm, trivial, trivial, trivial, trivial⟩
      · have hcond : ¬ ((c + 1) % 100 = 0 ∧ decide (k < c + 1) = true) := by
          rintro ⟨h1, h2⟩
          simp only [decide_eq_true_eq] at h2
          omega
        have hcond0 : ¬ ((c + 1) % 100 = 0 ∧ (fun _ : Nat => false) (c + 1) = true) := by
          rintro ⟨h1, h2⟩
          simp at h2
        simp only [importRun, if_neg hcond]
        simp only [importRun, if_neg hcond0] at hok
        refine ih st (c + 1) (acc ++ [st.film]) hok (by omega) ?_
        simp only [countEnds] at hle
        omega
    | leaf v =>
      simp only [importRun] at hok ⊢
      revert hok
      generalize add_value st (leafVal v) = res
      intro hok
      cases res with
      | some st' => exact ih st' c acc hok hlt (by simpa [countEnds] using hle)
      | none => simp at hok
    | other =>
      simp only [importRun] at hok ⊢
      exact ih st c acc hok hlt (by simpa [countEnds] using hle)

/-- C6: if cancellation becomes true after record `k` (polled every 100
records) and the stream would otherwise run to completion with at least the
next poll boundary's worth of records, the cancelled `Import` run processes
at most `k + 100` records, calls `ftUpdateEnd` exactly once with
`aborted = True`, persists status `ABORTED`, closes the file and returns
`True` (cancellation is not an error). -/
theorem import_cancellation (k : Nat) (tokens : List Token)
    (hok : (importFilmlist (fun _ => false) tokens).retval = some true)
    (hlen : 100 * (k / 100 + 1) ≤ countEnds tokens) :
    (importFilmlist (fun n => decide (k < n)) tokens).processed ≤ k + 100 ∧
    (importFilmlist (fun n => decide (k < n)) tokens).endCalls = [true] ∧
    (importFilmlist (fun n => decide (k < n)) tokens).finalStatus = some "ABORTED" ∧
    (importFilmlist (fun n => decide (k < n)) tokens).fileClosed = true ∧
    (importFilmlist (fun n => decide (k < n)) tokens).retval = some true := by
  have h := importRun_abort_aux k tokens { film := defaultFilm, index := 0 } 0 []
    hok (by omega) (by simpa using hlen)
  refine ⟨?_, h.2.1, h.2.2.1, h.2.2.2.1, h.2.2.2.2⟩
  rw [importFilmlist, h.1]
  omega

/-- C6 witness: cancellation requested from the very start (`k = 0`) on a
stream of 100 records stops exactly at the first poll after record 100. -/
theorem import_cancellation_witness :
    (importFilmlist (fun _ => false) cancelTokensEx).retval = some true ∧
    100 * (0 / 100 + 1) ≤ countEnds cancelTokensEx ∧
    ((importFilmlist (fun n => decide (0 < n)) cancelTokensEx).processed ≤ 0 + 100 ∧
     (importFilmlist (fun n => decide (0 < n)) cancelTokensEx).endCalls = [true] ∧
     (importFilmlist (fun n => decide (0 < n)) cancelTokensEx).finalStatus = some "ABORTED" ∧
     (importFilmlist (fun n => decide (0 < n)) cancelTokensEx).fileClosed = true ∧
     (importFilmlist (fun n => decide (0 < n)) cancelTokensEx).retval = some true) :=
  ⟨by decide, by decide, import_cancellation 0 cancelTokensEx (by decide) (by decide)⟩

end MVUpdater

namespace MVUpdater

/-! ## C7: download/network error reporting -/

/-- C7: the claim says a manifest fetch failure and an empty mirror list are
reported to the UI sink with a failure return.  In the code, the manifest
failure path runs `except URLError as err:` with `URLError` never imported,
so a `NameError` escapes with NO notifier call; with an empty mirror list
`err` is unbound at `ShowDowloadError(lasturl, err)`, again a `NameError`.
Only the nonempty-all-mirrors-fail path behaves as claimed: it shows the
download error with the last attempted URL and returns `False`; no storage
method is called anywhere in `GetNewestList`. -/
theorem getNewestList_error_bug :
    (getNewestList true none dlOkEx true).outcome = GNLOutcome.nameError ∧
    (getNewestList true none dlOkEx true).events = [] ∧
    (getNewestList true (some []) dlOkEx true).outcome = GNLOutcome.nameError ∧
    (getNewestList true (some mirrorFailEx) (fun _ => false) true).outcome =
      GNLOutcome.ret false ∧
    (getNewestList true (some mirrorFailEx) (fun _ => false) true).events =
      [NotifierEvent.showDownloadProgress,
       NotifierEvent.updateDownloadProgress "http://a",
       NotifierEvent.updateDownloadProgress "http://b",
       NotifierEvent.closeDownloadProgress,
       NotifierEvent.showDownloadError "http://b"] ∧
    (getNewestList true none dlOkEx true).storageTouched = false ∧
    (getNewestList true (some mirrorFailEx) (fun _ => false) true).storageTouched = false := by
  decide

/-! ## C8: the chunked URL copier -/

/-- Shifting a report block by one position. -/
theorem range_map_shift (i j csz : Nat) (tsz : Int) :
    ((i, csz, tsz) :: (List.range j).map (fun d => (i + 1 + d, csz, tsz))) =
      (List.range (j + 1)).map (fun d => (i + d, csz, tsz)) := by
  rw [List.range_succ_eq_map, List.map_cons, List.map_map]
  refine congrArg₂ _ (by simp) ?_
  apply List.map_congr_left
  intro d hd
  simp [Function.comp, Nat.succ_eq_add_one]
  omega

/-- The copier reports `(total_chunks, chunk_size, total_size)` exactly once
before every read attempt. -/
theorem copierLoop_reports_shape (ab : Nat → Bool) (csz : Nat) (tsz : Int) :
    ∀ (chs : List (List Nat)) (i : Nat),
      (copierLoop ab csz tsz chs i).reports =
        (List.range (copierLoop ab csz tsz chs i).reads).map (fun d => (i + d, csz, tsz)) := by
  intro chs
  induction chs with
  | nil =>
    intro i
    by_cases h : ab i = true <;> simp [copierLoop, h, List.range_succ]
  | cons c rest ih =>
    intro i
    by_cases h : ab i = true
    · simp [copierLoop, h]
    · by_cases hc : c = []
      · simp [copierLoop, h, hc, List.range_succ]
      · simp only [copierLoop, if_neg h, if_neg hc]
        rw [ih (i + 1)]
        exact range_map_shift i _ csz tsz

/-- If the abort hook first trips at poll `j` while at least `j` nonempty
chunks remain, the copier transfers exactly the first `j` chunks, reports
once before each of the `j` reads, then raises `ExitRequested` with no
further read or write. -/
theorem copierLoop_abort (ab : Nat → Bool) (csz : Nat) (tsz : Int) :
    ∀ (j : Nat) (chs : List (List Nat)) (i : Nat),
      (∀ d, d < j → ab (i + d) = false) → ab (i + j) = true → j ≤ chs.length →
      (∀ c ∈ chs.take j, c ≠ []) →
      copierLoop ab csz tsz chs i =
        { reports := (List.range j).map (fun d => (i + d, csz, tsz)), reads := j,
          writes := chs.take j, outcome := CopyOutcome.exitRequested } := by
  intro j
  induction j with
  | zero =>
    intro chs i hlt htrip hlen hne
    have h0 : ab i = true := by simpa using htrip
    cases chs <;> simp [copierLoop, h0]
  | succ j ih =>
    intro chs i hlt htrip hlen hne
    have h0 : ab i = false := by simpa using hlt 0 (Nat.succ_pos j)
    cases chs with
    | nil => simp at hlen
    | cons c rest =>
      have hc : c ≠ [] := hne c (by simp [List.take_succ_cons])
      have hr := ih rest (i + 1)
        (fun d hd => by
          have h := hlt (d + 1) (by omega)
          rwa [show i + (d + 1) = i + 1 + d by omega] at h)
        (by rwa [show i + 1 + j = i + (j + 1) by omega])
        (by simpa using hlen)
        (fun d hd => hne d (by simp [List.take_succ_cons, hd]))
      simp only [copierLoop, if_neg hc, hr, List.take_succ_cons]
      simp [h0, range_map_shift]

/-- C8: before every chunk read the cancellation predicate is evaluated; when
it first trips the copier raises `ExitRequested` having performed no further
read or write; the reporting hook is called with
`(chunks_transferred, chunk_size, total_size)` exactly once before each read
attempt; `total_size` is the transport's declared `Content-Length` (`0` when
absent or empty), and a missing abort hook defaults to never aborting. -/
theorem chunked_copier_contract :
    (∀ (ab : Nat → Bool) (csz : Nat) (tsz : Int) (chs : List (List Nat)) (i : Nat),
      (copierLoop ab csz tsz chs i).reports =
        (List.range (copierLoop ab csz tsz chs i).reads).map (fun d => (i + d, csz, tsz))) ∧
    (∀ (ab : Nat → Bool) (csz : Nat) (tsz : Int) (chs : List (List Nat)) (j : Nat),
      (∀ d, d < j → ab d = false) → ab j = true → j ≤ chs.length →
      (∀ c ∈ chs.take j, c ≠ []) →
      copierLoop ab csz tsz chs 0 =
        { reports := (List.range j).map (fun d => (d, csz, tsz)), reads := j,
          writes := chs.take j, outcome := CopyOutcome.exitRequested }) ∧
    (totalSizeOf none = some 0 ∧ totalSizeOf (some "") = some 0 ∧
      ∀ h : String, h ≠ "" → totalSizeOf (some h) = pyInt (pyStrip h)) ∧
    (∀ (cl : Option String) (csz : Nat) (chunks : List (List Nat)),
      chunkedUrlCopier cl csz none chunks =
        (totalSizeOf cl).map (fun tsz => copierLoop (fun _ => false) csz tsz chunks 0)) := by
  refine ⟨copierLoop_reports_shape, ?_, ⟨rfl, rfl, ?_⟩, ?_⟩
  · intro ab csz tsz chs j hlt htrip hlen hne
    have h := copierLoop_abort ab csz tsz j chs 0
      (fun d hd => by simpa using hlt d hd) (by simpa using htrip) hlen hne
    rw [h]
    simp
  · intro h hne
    simp [totalSizeOf, hne]
  · intro cl csz chunks
    cases htot : totalSizeOf cl <;> simp [chunkedUrlCopier, htot]

/-- C8 witness: the cancellation contract applied at a concrete source of
three one-byte chunks with the hook tripping at the second poll. -/
theorem chunked_copier_witness :
    (copierLoop copierAbortEx 8192 0 [[1], [2], [3]] 0).outcome =
      CopyOutcome.exitRequested ∧
    (copierLoop copierAbortEx 8192 0 [[1], [2], [3]] 0).reads = 1 ∧
    (copierLoop copierAbortEx 8192 0 [[1], [2], [3]] 0).writes = [[1]] ∧
    (copierLoop copierAbortEx 8192 0 [[1], [2], [3]] 0).reports = [(0, 8192, 0)] := by
  have h := chunked_copier_contract.2.1 copierAbortEx 8192 0 [[1], [2], [3]] 1
    (fun d hd => by
      have hd0 : d = 0 := by omega
      rw [hd0]
      rfl)
    (by rfl) (by decide) (by decide)
  rw [h]
  refine ⟨rfl, rfl, by decide, by decide⟩

end MVUpdater
